import Mathlib

/-!
Shallow embedding of the DLPC900 control-plane protocol layer
(`dlpyc900/dlpyc900.py` and `dlpyc900/WCIL.py`): the bit-string helpers,
the USB command-frame serializer and reply parser of `dmd.send_command` /
`parse_reply`, the 64-byte chunking and retry behaviour of the USB
dispatcher, the status-check and power-mode decoders, the display-mode
precondition, the pattern-LUT payload builders, and the RS485 serial frame
codec of `RS485Device`.  Machine bytes are modelled as `Nat` with explicit
masks; Python exceptions and fall-through returns are modelled as `Option`.
-/

namespace DLPC900

/-! ### Bit-string helpers (dlpyc900.py lines 17-29)

Python represents bit strings as strings of the characters 0 and 1; we
represent them as `List Nat` whose entries are the binary digits, and keep
a `List Char` variant where the string/integer distinction matters. -/

/-- Big-endian binary digits of a natural number, as produced by Python
`format(a, "b")` (so `0` yields the single digit `0`). -/
def natBits (n : Nat) : List Nat :=
  if n < 2 then [n]
  else natBits (n / 2) ++ [n % 2]
termination_by n
decreasing_by omega

/-- `number_to_bits(a, bitlen)`: big-endian binary digits of `a`,
zero-padded on the left to `bitlen` digits (longer if `a` needs more). -/
def number_to_bits (a bitlen : Nat) : List Nat :=
  List.replicate (bitlen - (natBits a).length) 0 ++ natBits a

/-- The string form of `number_to_bits`, keeping Python characters. -/
def number_to_bits_str (a bitlen : Nat) : List Char :=
  (number_to_bits a bitlen).map (fun b => if b = 1 then '1' else '0')

/-- Value of a big-endian digit list, as Python `int(bits, 2)`. -/
def bitsVal (l : List Nat) : Nat :=
  l.foldl (fun acc b => 2 * acc + b) 0

/-- The successive 8-character slices `bits[i:i+8]` taken by
`bits_to_bytes`; the final slice may be shorter than 8. -/
def chunks8 (l : List Nat) : List (List Nat) :=
  if l = [] then []
  else l.take 8 :: chunks8 (l.drop 8)
termination_by l.length
decreasing_by
  have : 0 < l.length := List.length_pos.mpr (by assumption)
  simp [List.length_drop]
  omega

/-- `bits_to_bytes(bits)`: split the bit string into 8-bit slices from the
left, read each slice as a byte, and reverse the resulting list. -/
def bits_to_bytes (bits : List Nat) : List Nat :=
  ((chunks8 bits).map bitsVal).reverse

/-! ### USB frame codec (dlpyc900.py lines 31-44 and 71-146) -/

/-- The 6 header bytes assembled into `buffer` by `dmd.send_command` before
the payload is appended: flag byte (read bit plus the fixed `1000000`
pattern), sequence byte, two little-endian length bytes for
`len(payload) + 2`, and the two little-endian command bytes. -/
def frame_bytes (mode : Char) (sequence_byte command : Nat)
    (payload : List Nat) : List Nat :=
  let flag_string := (if mode = 'r' then 1 else 0) :: [1, 0, 0, 0, 0, 0, 0]
  let temp := bits_to_bytes (number_to_bits (payload.length + 2) 16)
  [(bits_to_bytes flag_string).getD 0 0, sequence_byte,
   temp.getD 0 0, temp.getD 1 0,
   command &&& 0xFF, (command >>> 8) &&& 0xFF]

/-- The full serialized command frame: header bytes followed by the payload
verbatim (the byte sequence `send_command` splits into USB packets). -/
def serialize_frame (mode : Char) (sequence_byte command : Nat)
    (payload : List Nat) : List Nat :=
  frame_bytes mode sequence_byte command payload ++ payload

/-- `parse_reply(reply)`: split a reply byte tuple into
`(error_flag, flag_byte, sequence_byte, length, data)`.  `None` input gives
`None`; a tuple with fewer than the 4 indexed header bytes raises in Python
(modelled as `none`).  The data field is the Python slice
`reply[4:4+length]`, which silently stops at the end of the tuple. -/
def parse_reply (reply : Option (List Nat)) :
    Option (Bool × List Char × Nat × Nat × List Nat) :=
  match reply with
  | none => none
  | some r =>
    if 4 ≤ r.length then
      let len := r.getD 2 0 ||| (r.getD 3 0 <<< 8)
      some (r.getD 0 0 &&& 0x20 != 0, number_to_bits_str (r.getD 0 0) 8,
        r.getD 1 0, len, (r.drop 4).take len)
    else none

/-! ### USB chunked transfer (dlpyc900.py lines 112-137) -/

/-- The `while len(remaining_data) > 0` loop of `send_command`: successive
64-byte chunks of the remaining payload, the final chunk zero-padded to 64
bytes. -/
def chunk_loop (remaining_data : List Nat) : List (List Nat) :=
  if remaining_data = [] then []
  else
    (remaining_data.take 64
        ++ List.replicate (64 - (remaining_data.take 64).length) 0)
      :: chunk_loop (remaining_data.drop 64)
termination_by remaining_data.length
decreasing_by
  have : 0 < remaining_data.length := List.length_pos.mpr (by assumption)
  simp [List.length_drop]
  omega

/-- The list of 64-byte USB packets written by `send_command` for one
frame: either a single zero-padded packet, or a first packet carrying the
header and the first 58 payload bytes followed by the chunk loop over the
rest. -/
def send_packets (mode : Char) (sequence_byte command : Nat)
    (payload : List Nat) : List (List Nat) :=
  let buffer := frame_bytes mode sequence_byte command payload
  if buffer.length + payload.length < 65 then
    [buffer ++ payload
      ++ List.replicate (64 - (buffer.length + payload.length)) 0]
  else
    (buffer ++ payload.take 58) :: chunk_loop (payload.drop 58)

/-! ### USB write retry behaviour (dlpyc900.py lines 112-137)

The transport is modelled by a schedule of write outcomes: `true` means the
next `dev.write` raises a transient `usb.USBError`, `false` means it
succeeds; attempts beyond the schedule succeed.  A send returns the
unconsumed schedule, or `none` when an uncaught exception propagates. -/

/-- Consume one write attempt from the failure schedule. -/
def attempt : List Bool → Bool × List Bool
  | [] => (false, [])
  | b :: rest => (b, rest)

/-- A `dev.write` wrapped in `try/except usb.USBError`: one transient
failure is retried once after a short sleep; a failure of the retry (which
is outside the `except`) propagates. -/
def write_retry (s : List Bool) : Option (List Bool) :=
  match attempt s with
  | (false, s1) => some s1
  | (true, s1) =>
    match attempt s1 with
    | (false, s2) => some s2
    | (true, _) => none

/-- A bare `dev.write` with no surrounding `try/except`: a transient
failure propagates immediately. -/
def write_once (s : List Bool) : Option (List Bool) :=
  match attempt s with
  | (false, s1) => some s1
  | (true, _) => none

/-- The chunk loop of `send_command` viewed through its writes: each chunk
is written with the retried write. -/
def chunk_writes : List (List Nat) → List Bool → Option (List Bool)
  | [], s => some s
  | _ :: rest, s => (write_retry s).bind (chunk_writes rest)

/-- The sequence of writes issued by `send_command` for a frame with the
given payload, as a function of the transport failure schedule.  In the
single-packet branch the one write is retried; in the multi-chunk branch
the first (header-carrying) write at line 124 has no `try/except`, and only
the subsequent chunk writes are retried. -/
def send_command_writes (payload : List Nat) (s : List Bool) :
    Option (List Bool) :=
  if 6 + payload.length < 65 then write_retry s
  else (write_once s).bind (chunk_writes (chunk_loop (payload.drop 58)))

/-! ### Status checks (dlpyc900.py lines 208-220)

`number_to_bits` returns a Python string, so `ansbit[i]` is a
one-character string; comparing it with the integer `0` is a dynamically
typed comparison that is always `False`.  `PyVal` keeps that distinction. -/

/-- A dynamically typed Python value: an integer or a string. -/
inductive PyVal where
  | pint : Nat → PyVal
  | pstr : List Char → PyVal
deriving DecidableEq

/-- Python `==` on dynamically typed values: values of different types
compare unequal. -/
def pyEq : PyVal → PyVal → Bool
  | .pint a, .pint b => a == b
  | .pstr a, .pstr b => a == b
  | _, _ => false

/-- Whether `check_communication_status` raises `DMDerror` for the status
byte returned by command `0x1A49`.  The code tests
`not (ansbit[0] == ansbit[2] == 0)` where `ansbit` is a string. -/
def check_communication_status (status : Nat) : Bool :=
  let ansbit := number_to_bits_str status 8
  !(pyEq (.pstr [ansbit.getD 0 '0']) (.pstr [ansbit.getD 2 '0'])
    && pyEq (.pstr [ansbit.getD 2 '0']) (.pint 0))

/-- Whether `check_system_status` raises `DMDerror` for the status byte
returned by command `0x1A0B`.  The code tests `ansbit[0] == 0` where
`ansbit` is a string. -/
def check_system_status (status : Nat) : Bool :=
  let ansbit := number_to_bits_str status 8
  pyEq (.pstr [ansbit.getD 0 '0']) (.pint 0)

/-! ### Power mode (dlpyc900.py lines 568-587) -/

/-- `get_current_powermode`, as a function of the first data byte of the
idle query (`0x0201`) and of the sleep query (`0x0200`).  The Python
function has no `else` for `sleepstatus == 0` with `idlestatus` not in
`{0, 1}` and falls through, returning `None`. -/
def get_current_powermode (idlestatus sleepstatus : Nat) : Option String :=
  if sleepstatus = 0 then
    if idlestatus = 0 then some "normal"
    else if idlestatus = 1 then some "idle"
    else none
  else if sleepstatus = 1 then some "standby"
  else some "undocumented state"

/-! ### Display-mode state machine (dlpyc900.py lines 417-453) -/

/-- The facade state touched by `set_display_mode`: the cached mode string
and a counter of `send_command` transport transactions issued. -/
structure DmdState where
  current_mode : String
  transport_calls : Nat
deriving DecidableEq

/-- The `display_modes` dictionary. -/
def display_modes : List (String × Nat) :=
  [("video", 0), ("pattern", 1), ("video-pattern", 2), ("otf", 3)]

/-- The `display_modes_inv` dictionary; `none` models a `KeyError`. -/
def display_modes_inv (n : Nat) : Option String :=
  (display_modes.find? (fun p => p.2 == n)).map (fun p => p.1)

/-- The error message raised when Video Pattern mode is requested while the
cached mode is not Video. -/
def video_pattern_transition_error : String :=
  "To change to Video Pattern Mode the system must first change to Video Mode with the desired source enabled and sync locked"

/-- `set_display_mode(mode)`, with the device reply to the mode read-back
query supplied as an oracle byte.  Returns the new facade state and the
raised error, if any; an error raised before a `send_command` leaves the
state untouched with no transport call counted. -/
def set_display_mode (st : DmdState) (mode : String) (readback : Nat) :
    DmdState × Option String :=
  if ¬ (display_modes.any (fun p => p.1 == mode)) then
    (st, some "mode unknown")
  else if mode = "video-pattern" ∧ st.current_mode ≠ "video" then
    (st, some video_pattern_transition_error)
  else
    let st1 : DmdState :=
      { st with transport_calls := st.transport_calls + 1 }
    match display_modes_inv readback with
    | none => ({ st1 with transport_calls := st1.transport_calls + 1 },
        some "KeyError")
    | some m =>
      let st2 : DmdState :=
        { current_mode := m, transport_calls := st1.transport_calls + 1 }
      if m ≠ mode then (st2, some "Mode activation failed.")
      else (st2, none)

/-! ### Pattern LUT start payload (dlpyc900.py lines 475-490) -/

/-- The payload built by `start_pattern_from_LUT`: `bits_to_bytes` of the
10-bit entry count followed by `bits_to_bytes` of the 32-bit repeat
count. -/
def start_pattern_from_LUT_payload
    (nr_of_LUT_entries nr_of_patterns_to_display : Nat) : List Nat :=
  let byte_01 := bits_to_bytes (number_to_bits nr_of_LUT_entries 10)
  let byte_25 := bits_to_bytes (number_to_bits nr_of_patterns_to_display 32)
  byte_01 ++ byte_25

/-! ### RS485 serial frame codec (WCIL.py lines 17-55, 68-82) -/

/-- The constant serial frame header `[0x55, 0xAA]`. -/
def serial_frame_header : List Nat := [0x55, 0xAA]

/-- The constant serial frame tail `[0xDA, 0xC3]`. -/
def serial_frame_tail : List Nat := [0xDA, 0xC3]

/-- `_calculate_checksum(data)`: sum of the bytes masked to 8 bits. -/
def calculate_checksum (data : List Nat) : Nat :=
  data.sum &&& 0xFF

/-- `_build_frame(func_code, data)`: header, address, function code and
data, then a checksum over the Python slice `frame[3:-2]` of the
partially built frame, then the tail. -/
def build_frame (address func_code : Nat) (data : List Nat) : List Nat :=
  let frame := serial_frame_header ++ [address, func_code] ++ data
  let checksum := calculate_checksum ((frame.drop 3).take (frame.length - 5))
  frame ++ [checksum] ++ serial_frame_tail

/-- `_validate_response(response, expected_func_code)`: length, header,
tail, address and function-code checks, then a checksum recomputed over
`response[3:-3]` and compared with `response[-3]`. -/
def validate_response (response : List Nat)
    (address expected_func_code : Nat) : Bool :=
  if response.length < 8 then false
  else if response.take 2 ≠ serial_frame_header
      ∨ response.drop (response.length - 2) ≠ serial_frame_tail then false
  else if response.getD 2 0 ≠ address
      ∨ response.getD 3 0 ≠ expected_func_code then false
  else calculate_checksum ((response.drop 3).take (response.length - 6))
    == response.getD (response.length - 3) 0

/-- The serial device state observed by the claims: the frames written to
the serial port so far. -/
structure SerialState where
  writes : List (List Nat)
deriving DecidableEq

/-- `set_output_current(current_ma)`, with the device response supplied as
an oracle (`none` models a failed or invalid read).  Returns the new serial
state and the boolean result.  Currents above 3500 mA are rejected before
any frame is built or written. -/
def set_output_current (st : SerialState) (current_ma : Nat)
    (response : Option (List Nat)) : SerialState × Bool :=
  if 3500 < current_ma then (st, false)
  else
    let byte0 := (current_ma >>> 8) &&& 0xFF
    let byte1 := current_ma &&& 0xFF
    let data := [byte0, byte1, 0x00]
    let frame := build_frame 0x01 0x03 data
    let st1 : SerialState := { writes := st.writes ++ [frame] }
    match response with
    | none => (st1, false)
    | some resp =>
      if validate_response resp 0x01 0x03
          && ((resp.drop 4).take 3 == data) then (st1, true)
      else (st1, false)

end DLPC900

namespace DLPC900

theorem bitsVal_foldl_shift (b : List Nat) (acc : Nat) :
    b.foldl (fun acc b => 2 * acc + b) acc = acc * 2 ^ b.length + bitsVal b := by
  induction b generalizing acc with
  | nil => simp [bitsVal]
  | cons x xs ih =>
    simp only [List.foldl_cons, List.length_cons, bitsVal]
    rw [ih (2 * acc + x), ih (2 * 0 + x)]
    ring

theorem bitsVal_cons (x : Nat) (xs : List Nat) :
    bitsVal (x :: xs) = x * 2 ^ xs.length + bitsVal xs := by
  simpa [bitsVal] using bitsVal_foldl_shift xs x

theorem bitsVal_append (a b : List Nat) :
    bitsVal (a ++ b) = bitsVal a * 2 ^ b.length + bitsVal b := by
  simpa [bitsVal, List.foldl_append] using bitsVal_foldl_shift b (bitsVal a)

theorem bitsVal_take_drop (l : List Nat) (k : Nat) :
    bitsVal l = bitsVal (l.take k) * 2 ^ (l.drop k).length + bitsVal (l.drop k) := by
  conv_lhs => rw [← List.take_append_drop k l]
  exact bitsVal_append _ _

theorem bitsVal_replicate_zero (m : Nat) : bitsVal (List.replicate m 0) = 0 := by
  induction m with
  | zero => rfl
  | succ n ih => simpa [List.replicate_succ, bitsVal_cons] using ih

theorem bitsVal_lt (l : List Nat) (h : ∀ b ∈ l, b ≤ 1) :
    bitsVal l < 2 ^ l.length := by
  induction l with
  | nil => simp [bitsVal]
  | cons x xs ih =>
    have hx : x ≤ 1 := h x (by simp)
    have hxs := ih (fun b hb => h b (by simp [hb]))
    rw [bitsVal_cons]
    have : x * 2 ^ xs.length ≤ 2 ^ xs.length := by
      calc x * 2 ^ xs.length ≤ 1 * 2 ^ xs.length :=
        Nat.mul_le_mul_right _ hx
      _ = 2 ^ xs.length := by ring
    simp only [List.length_cons, pow_succ]
    omega

theorem bitsVal_natBits (n : Nat) : bitsVal (natBits n) = n := by
  induction n using Nat.strong_induction_on with
  | _ n ih =>
    rw [natBits]
    by_cases h : n < 2
    · simp [h, bitsVal]
    · simp only [h, if_false]
      rw [bitsVal_append, ih (n / 2) (by omega)]
      have hb : bitsVal [n % 2] = n % 2 := by simp [bitsVal]
      rw [hb]
      simp only [List.length_cons, List.length_nil, pow_one]
      omega

theorem natBits_le_one (n : Nat) : ∀ b ∈ natBits n, b ≤ 1 := by
  induction n using Nat.strong_induction_on with
  | _ n ih =>
    rw [natBits]
    by_cases h : n < 2
    · intro b hb
      simp [h] at hb
      omega
    · simp only [h, if_false]
      intro b hb
      rcases List.mem_append.mp hb with hb | hb
      · exact ih (n / 2) (by omega) b hb
      · simp at hb
        omega

theorem natBits_length_pos (n : Nat) : 1 ≤ (natBits n).length := by
  rw [natBits]
  by_cases h : n < 2
  · simp [h]
  · simp only [h, if_false, List.length_append, List.length_cons, List.length_nil]
    omega

theorem natBits_length_le (n k : Nat) (h : n < 2 ^ k) (hk : 1 ≤ k) :
    (natBits n).length ≤ k := by
  induction k generalizing n with
  | zero => omega
  | succ k ih =>
    rw [natBits]
    by_cases hn : n < 2
    · simp [hn]
    · simp only [hn, if_false, List.length_append, List.length_cons,
        List.length_nil]
      have hdiv : n / 2 < 2 ^ k := by
        rw [pow_succ] at h
        omega
      by_cases hk1 : 1 ≤ k
      · have := ih (n / 2) hdiv hk1
        omega
      · interval_cases k
        omega

theorem number_to_bits_length (a k : Nat) (h : a < 2 ^ k) (hk : 1 ≤ k) :
    (number_to_bits a k).length = k := by
  have h1 := natBits_length_le a k h hk
  simp [number_to_bits, List.length_replicate]
  omega

theorem bitsVal_number_to_bits (a k : Nat) :
    bitsVal (number_to_bits a k) = a := by
  rw [number_to_bits, bitsVal_append, bitsVal_replicate_zero, bitsVal_natBits]
  ring

theorem number_to_bits_le_one (a k : Nat) :
    ∀ b ∈ number_to_bits a k, b ≤ 1 := by
  intro b hb
  rcases List.mem_append.mp hb with hb | hb
  · have := List.eq_of_mem_replicate hb
    omega
  · exact natBits_le_one a b hb

theorem chunks8_nil : chunks8 [] = [] := by
  rw [chunks8]
  simp

theorem chunks8_cons (l : List Nat) (h : l ≠ []) :
    chunks8 l = l.take 8 :: chunks8 (l.drop 8) := by
  rw [chunks8]
  simp [h]

theorem chunks8_of_length_le (l : List Nat) (h1 : l ≠ []) (h2 : l.length ≤ 8) :
    chunks8 l = [l] := by
  rw [chunks8_cons l h1, List.take_of_length_le h2, List.drop_eq_nil_of_le h2,
    chunks8_nil]

theorem bits_to_bytes_ten (a : Nat) (h : a < 2 ^ 10) :
    bits_to_bytes (number_to_bits a 10) = [a % 4, a / 4] := by
  have hlen : (number_to_bits a 10).length = 10 :=
    number_to_bits_length a 10 h (by norm_num)
  set l := number_to_bits a 10 with hldef
  have hdlen : (l.drop 8).length = 2 := by simp [List.length_drop, hlen]
  have hchunks : chunks8 l = [l.take 8, l.drop 8] := by
    rw [chunks8_cons l (by intro hnil; rw [hnil] at hlen; simp at hlen)]
    rw [chunks8_of_length_le (l.drop 8)
      (by intro hnil; rw [hnil] at hdlen; simp at hdlen) (by omega)]
  have hsplit := bitsVal_take_drop l 8
  have hval : bitsVal l = a := bitsVal_number_to_bits a 10
  have hlo : bitsVal (l.drop 8) < 2 ^ 2 := by
    have := bitsVal_lt (l.drop 8)
      (fun b hb => number_to_bits_le_one a 10 b (List.mem_of_mem_drop hb))
    rwa [hdlen] at this
  rw [hdlen, hval] at hsplit
  have hsplit2 : a = bitsVal (l.take 8) * 4 + bitsVal (l.drop 8) := by
    rw [hsplit]; norm_num
  have hlo2 : bitsVal (l.drop 8) < 4 := by
    have : (2:Nat) ^ 2 = 4 := by norm_num
    omega
  have e1 : bitsVal (l.drop 8) = a % 4 := by omega
  have e2 : bitsVal (l.take 8) = a / 4 := by omega
  rw [bits_to_bytes, hchunks]
  simp [e1, e2]

theorem bits_to_bytes_sixteen (a : Nat) (h : a < 2 ^ 16) :
    bits_to_bytes (number_to_bits a 16) = [a % 256, a / 256] := by
  have hlen : (number_to_bits a 16).length = 16 :=
    number_to_bits_length a 16 h (by norm_num)
  set l := number_to_bits a 16 with hldef
  have hdlen : (l.drop 8).length = 8 := by simp [List.length_drop, hlen]
  have hchunks : chunks8 l = [l.take 8, l.drop 8] := by
    rw [chunks8_cons l (by intro hnil; rw [hnil] at hlen; simp at hlen)]
    rw [chunks8_of_length_le (l.drop 8)
      (by intro hnil; rw [hnil] at hdlen; simp at hdlen) (by omega)]
  have hsplit := bitsVal_take_drop l 8
  have hval : bitsVal l = a := bitsVal_number_to_bits a 16
  have hlo : bitsVal (l.drop 8) < 2 ^ 8 := by
    have := bitsVal_lt (l.drop 8)
      (fun b hb => number_to_bits_le_one a 16 b (List.mem_of_mem_drop hb))
    rwa [hdlen] at this
  rw [hdlen, hval] at hsplit
  have hsplit2 : a = bitsVal (l.take 8) * 256 + bitsVal (l.drop 8) := by
    rw [hsplit]; norm_num
  have hlo2 : bitsVal (l.drop 8) < 256 := by
    have : (2:Nat) ^ 8 = 256 := by norm_num
    omega
  have e1 : bitsVal (l.drop 8) = a % 256 := by omega
  have e2 : bitsVal (l.take 8) = a / 256 := by omega
  rw [bits_to_bytes, hchunks]
  simp [e1, e2]

theorem bits_to_bytes_thirtytwo (a : Nat) (h : a < 2 ^ 32) :
    bits_to_bytes (number_to_bits a 32)
      = [a % 256, a / 256 % 256, a / 65536 % 256, a / 16777216] := by
  have hlen : (number_to_bits a 32).length = 32 :=
    number_to_bits_length a 32 h (by norm_num)
  set l := number_to_bits a 32 with hldef
  have hmem : ∀ b ∈ l, b ≤ 1 := number_to_bits_le_one a 32
  have hd8 : (l.drop 8).length = 24 := by simp [List.length_drop, hlen]
  have hd16 : (l.drop 16).length = 16 := by simp [List.length_drop, hlen]
  have hd24 : (l.drop 24).length = 8 := by simp [List.length_drop, hlen]
  have hchunks : chunks8 l
      = [l.take 8, (l.drop 8).take 8, (l.drop 16).take 8, l.drop 24] := by
    rw [chunks8_cons l (by intro hnil; rw [hnil] at hlen; simp at hlen)]
    rw [chunks8_cons (l.drop 8) (by intro hnil; rw [hnil] at hd8; simp at hd8)]
    rw [List.drop_drop]
    norm_num
    rw [chunks8_cons (l.drop 16)
      (by intro hnil; rw [hnil] at hd16; simp at hd16)]
    rw [List.drop_drop]
    norm_num
    rw [chunks8_of_length_le (l.drop 24)
      (by intro hnil; rw [hnil] at hd24; simp at hd24) (by omega)]
  have hs1 := bitsVal_take_drop l 8
  have hs2 := bitsVal_take_drop (l.drop 8) 8
  have hs3 := bitsVal_take_drop (l.drop 16) 8
  rw [List.drop_drop] at hs2 hs3
  norm_num at hs2 hs3
  have hval : bitsVal l = a := bitsVal_number_to_bits a 32
  have hb2 : bitsVal ((l.drop 8).take 8) < 2 ^ 8 := by
    have := bitsVal_lt ((l.drop 8).take 8) (fun b hb =>
      hmem b (List.mem_of_mem_drop (List.mem_of_mem_take hb)))
    have hlen2 : ((l.drop 8).take 8).length = 8 := by
      simp [List.length_take, hd8]
    rwa [hlen2] at this
  have hb3 : bitsVal ((l.drop 16).take 8) < 2 ^ 8 := by
    have := bitsVal_lt ((l.drop 16).take 8) (fun b hb =>
      hmem b (List.mem_of_mem_drop (List.mem_of_mem_take hb)))
    have hlen3 : ((l.drop 16).take 8).length = 8 := by
      simp [List.length_take, hd16]
    rwa [hlen3] at this
  have hb4 : bitsVal (l.drop 24) < 2 ^ 8 := by
    have := bitsVal_lt (l.drop 24) (fun b hb => hmem b (List.mem_of_mem_drop hb))
    rwa [hd24] at this
  rw [hval, hd8] at hs1
  simp only [hlen] at hs2 hs3
  norm_num at hs2 hs3
  have hpow8 : (2:Nat) ^ 8 = 256 := by norm_num
  have hpow24 : (2:Nat) ^ 24 = 16777216 := by norm_num
  rw [hpow24] at hs1
  rw [hpow8] at hb2 hb3 hb4
  have e4 : bitsVal (l.drop 24) = a % 256 := by omega
  have e3 : bitsVal ((l.drop 16).take 8) = a / 256 % 256 := by omega
  have e2 : bitsVal ((l.drop 8).take 8) = a / 65536 % 256 := by omega
  have e1 : bitsVal (l.take 8) = a / 16777216 := by omega
  rw [bits_to_bytes, hchunks]
  simp [e1, e2, e3, e4]

theorem lor_shiftLeft_of_lt {a b n : Nat} (h : a < 2 ^ n) :
    a ||| (b <<< n) = 2 ^ n * b + a := by
  apply Nat.eq_of_testBit_eq
  intro j
  rw [Nat.testBit_lor, Nat.testBit_shiftLeft, Nat.testBit_mul_pow_two_add b h j]
  by_cases hj : j < n
  · have hn : ¬ (j ≥ n) := by omega
    simp [hj, hn]
  · have hn : j ≥ n := by omega
    have ha : a < 2 ^ j :=
      lt_of_lt_of_le h (Nat.pow_le_pow_right (by norm_num) hn)
    simp [hj, hn, Nat.testBit_lt_two_pow ha]

theorem lor_bytes_le (x : Nat) (h : x < 65536) :
    x % 256 ||| ((x / 256) <<< 8) = x := by
  have h2 : x % 256 < 2 ^ 8 := by
    norm_num
    omega
  rw [lor_shiftLeft_of_lt h2]
  norm_num
  omega

theorem and_255 (x : Nat) : x &&& 255 = x % 256 := by
  have := Nat.and_pow_two_sub_one_eq_mod x 8
  norm_num at this
  exact this

theorem shiftRight_8 (x : Nat) : x >>> 8 = x / 256 := by
  rw [Nat.shiftRight_eq_div_pow]

/-- C1: for every direction, sequence byte, 16-bit command and payload with
`payload.len() + 6 <= 512`, parsing the byte sequence serialized by
`send_command` (flag byte, sequence byte verbatim, `payload.len() + 2`
little-endian over 2 bytes, command little-endian over 2 bytes, payload
verbatim) reconstructs the original sequence byte, command and payload
exactly: the parsed sequence field equals the sequence byte, the announced
length is `payload.len() + 2`, the first two data bytes recombine
little-endian to the command, and the rest of the data is the payload. -/
theorem C1_usb_frame_roundtrip (mode : Char) (sequence_byte command : Nat)
    (payload : List Nat)
    (hm : mode = 'r' ∨ mode = 'w') (hs : sequence_byte < 256)
    (hc : command < 65536) (hp : payload.length + 6 ≤ 512) :
    ∃ e f d,
      parse_reply (some (serialize_frame mode sequence_byte command payload))
        = some (e, f, sequence_byte, payload.length + 2, d)
      ∧ d.getD 0 0 ||| (d.getD 1 0 <<< 8) = command
      ∧ d.drop 2 = payload := by
  have htemp : bits_to_bytes (number_to_bits (payload.length + 2) 16)
      = [(payload.length + 2) % 256, (payload.length + 2) / 256] := by
    apply bits_to_bytes_sixteen
    norm_num
    omega
  have hser : serialize_frame mode sequence_byte command payload
      = (bits_to_bytes
            ((if mode = 'r' then 1 else 0) :: [1, 0, 0, 0, 0, 0, 0])).getD 0 0
        :: sequence_byte :: (payload.length + 2) % 256
        :: (payload.length + 2) / 256
        :: (command &&& 0xFF) :: ((command >>> 8) &&& 0xFF) :: payload := by
    simp [serialize_frame, frame_bytes, htemp]
  refine ⟨(bits_to_bytes
        ((if mode = 'r' then 1 else 0) :: [1, 0, 0, 0, 0, 0, 0])).getD 0 0
        &&& 0x20 != 0,
    number_to_bits_str ((bits_to_bytes
        ((if mode = 'r' then 1 else 0) :: [1, 0, 0, 0, 0, 0, 0])).getD 0 0) 8,
    (command &&& 0xFF) :: ((command >>> 8) &&& 0xFF) :: payload,
    ?_, ?_, ?_⟩
  · rw [hser]
    simp only [parse_reply]
    have hle : 4 ≤ ((bits_to_bytes
          ((if mode = 'r' then 1 else 0) :: [1, 0, 0, 0, 0, 0, 0])).getD 0 0
        :: sequence_byte :: (payload.length + 2) % 256
        :: (payload.length + 2) / 256
        :: (command &&& 0xFF) :: ((command >>> 8) &&& 0xFF)
        :: payload).length := by
      simp
    rw [if_pos hle]
    simp only [List.getD_cons_zero, List.getD_cons_succ, List.drop_succ_cons,
      List.drop_zero]
    rw [lor_bytes_le (payload.length + 2) (by omega)]
    have hlen2 : ((command &&& 0xFF) :: ((command >>> 8) &&& 0xFF)
        :: payload).length = payload.length + 2 := by
      simp
    rw [← hlen2, List.take_length]
  · simp only [List.getD_cons_zero, List.getD_cons_succ]
    rw [and_255, shiftRight_8, and_255]
    have hmod : command / 256 % 256 = command / 256 :=
      Nat.mod_eq_of_lt (by omega)
    rw [hmod, lor_bytes_le command hc]
  · simp

/-- C1 witness: the round trip at a concrete read frame. -/
theorem C1_usb_frame_roundtrip_witness :
    (('r' : Char) = 'r' ∨ ('r' : Char) = 'w') ∧ (5 : Nat) < 256
      ∧ (6683 : Nat) < 65536 ∧ ([1, 2, 3] : List Nat).length + 6 ≤ 512
      ∧ ∃ e f d,
          parse_reply (some (serialize_frame 'r' 5 6683 [1, 2, 3]))
            = some (e, f, 5, ([1, 2, 3] : List Nat).length + 2, d)
          ∧ d.getD 0 0 ||| (d.getD 1 0 <<< 8) = 6683
          ∧ d.drop 2 = [1, 2, 3] :=
  ⟨Or.inl rfl, by norm_num, by norm_num, by norm_num,
    C1_usb_frame_roundtrip 'r' 5 6683 [1, 2, 3] (Or.inl rfl) (by norm_num)
      (by norm_num) (by norm_num)⟩

/-- C2: the checksum byte `_build_frame` places before the tail is claimed
to be the 8-bit masked sum of the function code and all 3 data bytes, with
the built frame passing `_validate_response`.  In the code the checksum is
computed over the Python slice `frame[3:-2]`, which covers only the
function code and the first data byte, while `_validate_response`
recomputes over `response[3:-3]`, all four bytes.  For the spec example
data `[0x01, 0x00, 0x00]` the two agree and validation passes, but for the
frame built by `set_output_current(2000)` (data `[0x07, 0xD0, 0x00]`) the
stored checksum is `0x0A` whereas the documented sum is `0xDA`, and the
built frame fails validation. -/
theorem C2_serial_checksum_bug :
    validate_response (build_frame 0x01 0x03 [0x01, 0x00, 0x00]) 0x01 0x03
      = true
    ∧ (build_frame 0x01 0x03 [0x07, 0xD0, 0x00]).getD 7 0 = 0x0A
    ∧ (0x03 + 0x07 + 0xD0 + 0x00) &&& 0xFF = 0xDA
    ∧ validate_response (build_frame 0x01 0x03 [0x07, 0xD0, 0x00]) 0x01 0x03
      = false := by
  decide

/-- C4 counterexample: for the received reply `(0, 0, 5, 0, 9)` the length
field announces 5 data bytes but only one follows; `parse_reply` does not
fail, it returns a reply whose data field has 1 byte, not `length`
bytes. -/
theorem C4_counterexample_truncated_parse :
    parse_reply (some [0, 0, 5, 0, 9])
      = some (false, number_to_bits_str 0 8, 0, 5, [9])
    ∧ ([9] : List Nat).length ≠ 5 := by
  constructor
  · rfl
  · decide

/-- C4 amended: `parse_reply` never fails on a reply with at least the 4
indexed header bytes; when fewer data bytes follow than the little-endian
length field announces, it silently truncates, returning a data field of
`min length (received - 4)` bytes. -/
theorem C4_parse_reply_truncates (r : List Nat) (h : 4 ≤ r.length) :
    ∃ e f s,
      parse_reply (some r)
        = some (e, f, s, r.getD 2 0 ||| ((r.getD 3 0) <<< 8),
            (r.drop 4).take (r.getD 2 0 ||| ((r.getD 3 0) <<< 8)))
      ∧ ((r.drop 4).take (r.getD 2 0 ||| ((r.getD 3 0) <<< 8))).length
          = min (r.getD 2 0 ||| ((r.getD 3 0) <<< 8)) (r.length - 4) := by
  refine ⟨r.getD 0 0 &&& 0x20 != 0, number_to_bits_str (r.getD 0 0) 8,
    r.getD 1 0, ?_, ?_⟩
  · simp [parse_reply, h]
  · simp [List.length_take, List.length_drop]

/-- C4 amended witness: the truncating parse at the counterexample
reply. -/
theorem C4_parse_reply_truncates_witness :
    4 ≤ ([0, 0, 5, 0, 9] : List Nat).length
    ∧ ∃ e f s,
        parse_reply (some [0, 0, 5, 0, 9])
          = some (e, f, s,
              ([0, 0, 5, 0, 9] : List Nat).getD 2 0
                ||| ((([0, 0, 5, 0, 9] : List Nat).getD 3 0) <<< 8),
              (([0, 0, 5, 0, 9] : List Nat).drop 4).take
                (([0, 0, 5, 0, 9] : List Nat).getD 2 0
                  ||| ((([0, 0, 5, 0, 9] : List Nat).getD 3 0) <<< 8)))
        ∧ ((([0, 0, 5, 0, 9] : List Nat).drop 4).take
              (([0, 0, 5, 0, 9] : List Nat).getD 2 0
                ||| ((([0, 0, 5, 0, 9] : List Nat).getD 3 0) <<< 8))).length
            = min (([0, 0, 5, 0, 9] : List Nat).getD 2 0
                ||| ((([0, 0, 5, 0, 9] : List Nat).getD 3 0) <<< 8))
              (([0, 0, 5, 0, 9] : List Nat).length - 4) :=
  ⟨by norm_num, C4_parse_reply_truncates [0, 0, 5, 0, 9] (by norm_num)⟩

/-- C5: the claim says `check_communication_status` raises exactly when the
communication status bits are unset and `check_system_status` raises
exactly when the memory-test bit is unset.  In the code both comparisons
test a one-character string against the integer `0`, which in Python is
always `False`: so `check_communication_status` raises for every status
byte (even one with the required bits set) and `check_system_status` never
raises (even when the memory-test bit is unset). -/
theorem C5_status_checks_ignore_bits (status : Nat) :
    check_communication_status status = true
    ∧ check_system_status status = false := by
  constructor
  · simp [check_communication_status, pyEq]
  · simp [check_system_status, pyEq]

/-- C6 counterexample: for `entry_count = 4` the first payload byte of
`start_pattern_from_LUT` is not `entry_count &&& 0xFF`: `bits_to_bytes` of
the 10-bit string puts the low 2 bits of the entry count in the first byte
and the high 8 bits in the second byte. -/
theorem C6_counterexample_lut_entry_bytes :
    (start_pattern_from_LUT_payload 4 0).getD 0 0 ≠ 4 &&& 0xFF := by
  have h10 := bits_to_bytes_ten 4 (by norm_num)
  have h32 := bits_to_bytes_thirtytwo 0 (by norm_num)
  simp [start_pattern_from_LUT_payload, h10, h32, and_255]

/-- C6 amended: for every entry count below 2^10 and repeat count below
2^32, the payload is six bytes: first byte `entry_count mod 4` (the low 2
bits), second byte `entry_count div 4` (the high 8 bits), then the repeat
count little-endian over 4 bytes. -/
theorem C6_lut_payload_layout (n r : Nat) (hn : n < 1024)
    (hr : r < 4294967296) :
    start_pattern_from_LUT_payload n r
      = [n % 4, n / 4, r % 256, r / 256 % 256, r / 65536 % 256,
         r / 16777216] := by
  have h10 := bits_to_bytes_ten n (by norm_num; omega)
  have h32 := bits_to_bytes_thirtytwo r (by norm_num; omega)
  simp [start_pattern_from_LUT_payload, h10, h32]

/-- C6 amended witness: the payload layout at entry count 5 and repeat
count 7. -/
theorem C6_lut_payload_layout_witness :
    (5 : Nat) < 1024 ∧ (7 : Nat) < 4294967296
    ∧ start_pattern_from_LUT_payload 5 7 = [1, 1, 7, 0, 0, 0] := by
  refine ⟨by norm_num, by norm_num, ?_⟩
  have h := C6_lut_payload_layout 5 7 (by norm_num) (by norm_num)
  rw [h]

/-- C8: requesting `video-pattern` while the cached mode is anything but
`video` raises the invalid-transition error before any command is sent:
the facade state, including the transport call counter and the cached
mode, is returned unchanged. -/
theorem C8_video_pattern_precondition (st : DmdState) (readback : Nat)
    (h : st.current_mode ≠ "video") :
    set_display_mode st "video-pattern" readback
      = (st, some video_pattern_transition_error) := by
  have hmem : display_modes.any (fun p => p.1 == "video-pattern") = true := by
    decide
  simp [set_display_mode, hmem, h]

/-- C8 witness: the rejected transition from cached mode `pattern` with
zero transport calls. -/
theorem C8_video_pattern_precondition_witness :
    (DmdState.mk "pattern" 0).current_mode ≠ "video"
    ∧ set_display_mode ⟨"pattern", 0⟩ "video-pattern" 0
        = (⟨"pattern", 0⟩, some video_pattern_transition_error) :=
  ⟨by decide, C8_video_pattern_precondition ⟨"pattern", 0⟩ 0 (by decide)⟩

/-- C9 counterexample: for idle flag 2 and sleep flag 0 the Python
function falls out of its `if` chain and returns `None`, which is none of
the four documented results. -/
theorem C9_counterexample_powermode_none :
    get_current_powermode 2 0 = none := rfl

/-- C9 amended: `get_current_powermode` returns one of the four results
`normal`, `idle`, `standby` or the undocumented-state fallback for every
pair of reply bytes except when the sleep flag is 0 and the idle flag is 2
or more, in which case it falls through and returns no value at all. -/
theorem C9_powermode_partial (idlestatus sleepstatus : Nat) :
    get_current_powermode idlestatus sleepstatus = some "normal"
    ∨ get_current_powermode idlestatus sleepstatus = some "idle"
    ∨ get_current_powermode idlestatus sleepstatus = some "standby"
    ∨ get_current_powermode idlestatus sleepstatus = some "undocumented state"
    ∨ (sleepstatus = 0 ∧ 2 ≤ idlestatus
        ∧ get_current_powermode idlestatus sleepstatus = none) := by
  unfold get_current_powermode
  by_cases h1 : sleepstatus = 0
  · by_cases h2 : idlestatus = 0
    · simp [h1, h2]
    · by_cases h3 : idlestatus = 1
      · simp [h1, h2, h3]
      · simp [h1, h2, h3]
        omega
  · by_cases h4 : sleepstatus = 1
    · simp [h1, h4]
    · simp [h1, h4]

/-- C10: every current above 3500 mA is rejected by `set_output_current`
before any frame is built: the result is `False` and the serial state (the
list of frames written) is unchanged. -/
theorem C10_reject_high_current (st : SerialState) (current_ma : Nat)
    (response : Option (List Nat)) (h : 3500 < current_ma) :
    set_output_current st current_ma response = (st, false) := by
  simp [set_output_current, h]

/-- C10 witness: the rejection at 3501 mA on a fresh serial state. -/
theorem C10_reject_high_current_witness :
    3500 < 3501
    ∧ set_output_current ⟨[]⟩ 3501 none = (⟨[]⟩, false) :=
  ⟨by norm_num, C10_reject_high_current ⟨[]⟩ 3501 none (by norm_num)⟩

theorem chunk_loop_nil : chunk_loop [] = [] := by
  rw [chunk_loop]
  simp

theorem chunk_loop_cons (l : List Nat) (h : l ≠ []) :
    chunk_loop l
      = (l.take 64 ++ List.replicate (64 - (l.take 64).length) 0)
        :: chunk_loop (l.drop 64) := by
  rw [chunk_loop]
  simp [h]

theorem chunk_loop_mem_length_aux (n : Nat) :
    ∀ l : List Nat, l.length ≤ n → ∀ c ∈ chunk_loop l, c.length = 64 := by
  induction n with
  | zero =>
    intro l hl c hc
    have hnil : l = [] := List.length_eq_zero.mp (by omega)
    subst hnil
    rw [chunk_loop_nil] at hc
    simp at hc
  | succ n ih =>
    intro l hl c hc
    by_cases h : l = []
    · subst h
      rw [chunk_loop_nil] at hc
      simp at hc
    · rw [chunk_loop_cons l h] at hc
      rcases List.mem_cons.mp hc with rfl | hc2
      · simp [List.length_append, List.length_take, List.length_replicate]
      · have hlp : 0 < l.length := List.length_pos.mpr h
        exact ih (l.drop 64) (by simp [List.length_drop]; omega) c hc2

theorem chunk_loop_mem_length (l : List Nat) :
    ∀ c ∈ chunk_loop l, c.length = 64 :=
  chunk_loop_mem_length_aux l.length l le_rfl

theorem chunk_loop_length_aux (n : Nat) :
    ∀ l : List Nat, l.length ≤ n →
      (chunk_loop l).length = (l.length + 63) / 64 := by
  induction n with
  | zero =>
    intro l hl
    have hnil : l = [] := List.length_eq_zero.mp (by omega)
    subst hnil
    simp [chunk_loop_nil]
  | succ n ih =>
    intro l hl
    by_cases h : l = []
    · subst h
      simp [chunk_loop_nil]
    · have hlp : 0 < l.length := List.length_pos.mpr h
      rw [chunk_loop_cons l h]
      have hrec := ih (l.drop 64) (by simp [List.length_drop]; omega)
      simp only [List.length_cons, hrec, List.length_drop]
      omega

theorem chunk_loop_length (l : List Nat) :
    (chunk_loop l).length = (l.length + 63) / 64 :=
  chunk_loop_length_aux l.length l le_rfl

theorem chunk_loop_join_aux (n : Nat) :
    ∀ l : List Nat, l.length ≤ n →
      (chunk_loop l).flatten
        = l ++ List.replicate ((l.length + 63) / 64 * 64 - l.length) 0 := by
  induction n with
  | zero =>
    intro l hl
    have hnil : l = [] := List.length_eq_zero.mp (by omega)
    subst hnil
    simp [chunk_loop_nil]
  | succ n ih =>
    intro l hl
    by_cases h : l = []
    · subst h
      simp [chunk_loop_nil]
    · have hlp : 0 < l.length := List.length_pos.mpr h
      by_cases h64 : l.length ≤ 64
      · have hdrop : l.drop 64 = [] := List.drop_eq_nil_of_le h64
        have htake : l.take 64 = l := List.take_of_length_le h64
        rw [chunk_loop_cons l h, hdrop, chunk_loop_nil]
        simp [htake]
        have hcount : 64 - l.length = (l.length + 63) / 64 * 64 - l.length := by
          omega
        rw [hcount]
      · push_neg at h64
        have htl : (l.take 64).length = 64 := by
          simp [List.length_take]
          omega
        rw [chunk_loop_cons l h]
        have hrec := ih (l.drop 64) (by simp [List.length_drop]; omega)
        simp only [List.flatten_cons, hrec, htl, Nat.sub_self,
          List.replicate_zero, List.append_nil, List.length_drop]
        rw [← List.append_assoc, List.take_append_drop]
        have hcount : (l.length - 64 + 63) / 64 * 64 - (l.length - 64)
            = (l.length + 63) / 64 * 64 - l.length := by
          omega
        rw [hcount]

theorem chunk_loop_join (l : List Nat) :
    (chunk_loop l).flatten
      = l ++ List.replicate ((l.length + 63) / 64 * 64 - l.length) 0 :=
  chunk_loop_join_aux l.length l le_rfl

/-- C7: for every frame passing the 512-byte check, if the 6 header bytes
plus the payload fit in 64 bytes (payload up to 58 bytes) exactly one
zero-padded 64-byte packet is written; for payloads of 59 bytes or more
the first packet carries the 6 header bytes plus the first 58 payload
bytes, the remaining payload is split into successive 64-byte chunks whose
flattening is the remaining payload followed by the zero padding of the
last chunk, every packet is 64 bytes, and a 59-byte payload yields exactly
two packets. -/
theorem C7_send_command_chunking (mode : Char) (sequence_byte command : Nat)
    (payload : List Nat) (hp : payload.length + 6 ≤ 512) :
    (payload.length ≤ 58 →
      send_packets mode sequence_byte command payload
        = [frame_bytes mode sequence_byte command payload ++ payload
            ++ List.replicate (58 - payload.length) 0]
      ∧ ∀ p ∈ send_packets mode sequence_byte command payload, p.length = 64)
    ∧ (59 ≤ payload.length →
      send_packets mode sequence_byte command payload
        = (frame_bytes mode sequence_byte command payload ++ payload.take 58)
          :: chunk_loop (payload.drop 58)
      ∧ (∀ p ∈ send_packets mode sequence_byte command payload, p.length = 64)
      ∧ (send_packets mode sequence_byte command payload).length
          = 1 + (payload.length - 58 + 63) / 64
      ∧ (chunk_loop (payload.drop 58)).flatten
          = payload.drop 58
            ++ List.replicate
              ((payload.length - 58 + 63) / 64 * 64 - (payload.length - 58))
              0)
    ∧ (payload.length = 59 →
      (send_packets mode sequence_byte command payload).length = 2) := by
  have hblen : (frame_bytes mode sequence_byte command payload).length = 6 := by
    simp [frame_bytes]
  refine ⟨?_, ?_, ?_⟩
  · intro h58
    have hcond : (frame_bytes mode sequence_byte command payload).length
        + payload.length < 65 := by omega
    have hsingle : send_packets mode sequence_byte command payload
        = [frame_bytes mode sequence_byte command payload ++ payload
            ++ List.replicate (58 - payload.length) 0] := by
      simp only [send_packets]
      rw [if_pos hcond, hblen]
      have hcount : 64 - (6 + payload.length) = 58 - payload.length := by
        omega
      rw [hcount]
    refine ⟨hsingle, ?_⟩
    intro p hmem
    rw [hsingle] at hmem
    rcases List.mem_singleton.mp hmem with rfl
    simp [List.length_append, List.length_replicate, hblen]
    omega
  · intro h59
    have hcond : ¬ ((frame_bytes mode sequence_byte command payload).length
        + payload.length < 65) := by omega
    have hmulti : send_packets mode sequence_byte command payload
        = (frame_bytes mode sequence_byte command payload ++ payload.take 58)
          :: chunk_loop (payload.drop 58) := by
      simp only [send_packets]
      rw [if_neg hcond]
    refine ⟨hmulti, ?_, ?_, ?_⟩
    · intro p hmem
      rw [hmulti] at hmem
      rcases List.mem_cons.mp hmem with rfl | hmem2
      · simp [List.length_append, List.length_take, hblen]
        omega
      · exact chunk_loop_mem_length _ p hmem2
    · rw [hmulti]
      simp [List.length_cons, chunk_loop_length, List.length_drop]
      omega
    · have hj := chunk_loop_join (payload.drop 58)
      simpa [List.length_drop] using hj
  · intro h59
    have hcond : ¬ ((frame_bytes mode sequence_byte command payload).length
        + payload.length < 65) := by omega
    have hmulti : send_packets mode sequence_byte command payload
        = (frame_bytes mode sequence_byte command payload ++ payload.take 58)
          :: chunk_loop (payload.drop 58) := by
      simp only [send_packets]
      rw [if_neg hcond]
    rw [hmulti]
    simp [List.length_cons, chunk_loop_length, List.length_drop, h59]

/-- C7 witness: a 59-byte payload yields exactly two packets. -/
theorem C7_send_command_chunking_witness :
    (List.replicate 59 0 : List Nat).length + 6 ≤ 512
    ∧ ((List.replicate 59 0 : List Nat).length = 59 →
        (send_packets 'w' 1 6705 (List.replicate 59 0)).length = 2)
    ∧ (send_packets 'w' 1 6705 (List.replicate 59 0)).length = 2 := by
  have h := C7_send_command_chunking 'w' 1 6705 (List.replicate 59 0)
    (by decide)
  exact ⟨by decide, h.2.2, h.2.2 (by decide)⟩

/-- C3 counterexample: with a transport that fails transiently exactly once
on the first write attempt, a 59-byte payload (a multi-chunk frame) makes
`send_command` propagate the error: the first, header-carrying chunk write
at line 124 has no retry, whereas the same schedule on a 58-byte
single-packet payload is absorbed by the retry. -/
theorem C3_counterexample_first_chunk_no_retry :
    send_command_writes (List.replicate 59 0) [true] = none
    ∧ send_command_writes (List.replicate 58 0) [true] = some [] := by
  exact ⟨rfl, rfl⟩

/-- C3 amended: the single-packet write and every chunk write of the chunk
loop are retried exactly once after a fixed short backoff on a transient
write failure, and a second consecutive failure of the same write
propagates; but the first (header-carrying) chunk of a multi-chunk frame
is not retried, so its first transient failure propagates immediately. -/
theorem C3_write_retry_policy (payload : List Nat) (s : List Bool) :
    (payload.length ≤ 58 →
      send_command_writes payload (true :: false :: s)
        = send_command_writes payload (false :: s)
      ∧ send_command_writes payload (true :: true :: s) = none)
    ∧ (59 ≤ payload.length →
      send_command_writes payload (true :: s) = none)
    ∧ (∀ chunk rest s2,
        chunk_writes (chunk :: rest) (true :: false :: s2)
          = chunk_writes (chunk :: rest) (false :: s2)
        ∧ chunk_writes (chunk :: rest) (true :: true :: s2) = none) := by
  refine ⟨?_, ?_, ?_⟩
  · intro h
    have hc : 6 + payload.length < 65 := by omega
    constructor
    · simp [send_command_writes, hc, write_retry, attempt]
    · simp [send_command_writes, hc, write_retry, attempt]
  · intro h
    have hc : ¬ (6 + payload.length < 65) := by omega
    simp [send_command_writes, hc, write_once, attempt]
  · intro chunk rest s2
    constructor
    · simp [chunk_writes, write_retry, attempt]
    · simp [chunk_writes, write_retry, attempt]

/-- C3 amended witness: two consecutive failures kill a single-packet
write, and one unretried failure kills the first chunk of a multi-chunk
frame. -/
theorem C3_write_retry_policy_witness :
    (List.replicate 58 0 : List Nat).length ≤ 58
    ∧ send_command_writes (List.replicate 58 0) [true, true] = none
    ∧ 59 ≤ (List.replicate 59 0 : List Nat).length
    ∧ send_command_writes (List.replicate 59 0) [true] = none := by
  refine ⟨by decide, ?_, by decide, ?_⟩
  · exact ((C3_write_retry_policy (List.replicate 58 0) []).1 (by decide)).2
  · exact (C3_write_retry_policy (List.replicate 59 0) []).2.1 (by decide)

end DLPC900
